import Mathlib

/-!
Verification of the tkr-lang parser-combinator engine.

The combinator engine of `src/parser/src/parser.rs` is embedded shallowly:
a parser is a function from a stream to a result paired with the updated
stream (the Rust code passes `&mut Stream`, modelled here as explicit state
passing).  The simplified `Option`-based variant of `src/src/analyzer.rs`
is embedded the same way for the refinement comparison.
-/

namespace TkrParser

/-- Modelled from the spec: the repository's `stream.rs` (the `Stream` cursor
type used by both `parser.rs` and `analyzer.rs` via `crate::stream::Stream`)
is not present under `src/`.  Its interface is reconstructed from spec
sections 3 and 4.1 (an owned token sequence plus a mutable cursor index;
`peek` without mutation, `advance` by one, `pos`, `set_pos`) together with
the method calls appearing in the sources (`peak`, `next`, `pos`, `set_pos`,
`add_pos`, `eof`). -/
structure Stream (ι : Type) where
  tokens : List ι
  pos : Nat
deriving Repr, DecidableEq

/-- Modelled from the spec: `peek() -> Option<token>` with no mutation; past
the end it returns no token. -/
def Stream.peak (st : Stream ι) : Option ι :=
  st.tokens.get? st.pos

/-- Modelled from the spec: `advance()` moves the cursor forward by one. -/
def Stream.next (st : Stream ι) : Stream ι :=
  ⟨st.tokens, st.pos + 1⟩

/-- Modelled from the spec: `set_pos(index)` sets the cursor, with no bounds
check. -/
def Stream.set_pos (st : Stream ι) (p : Nat) : Stream ι :=
  ⟨st.tokens, p⟩

/-- Modelled from the spec: `add_pos(n)` (used by `analyzer.rs`) moves the
cursor forward by `n`. -/
def Stream.add_pos (st : Stream ι) (n : Nat) : Stream ι :=
  ⟨st.tokens, st.pos + n⟩

/-- Modelled from the spec: `eof()` (used by `analyzer.rs`) holds iff no
token remains at the cursor. -/
def Stream.eof (st : Stream ι) : Bool :=
  st.peak.isNone

/-- ErrorExpect from `parser.rs`: classification of what was expected. -/
inductive ErrorExpect (ι : Type) where
  | Any : ErrorExpect ι
  | Eof : ErrorExpect ι
  | Token : ι → ErrorExpect ι
  | Unknown : ErrorExpect ι
deriving Repr, DecidableEq

/-- ParserError from `parser.rs`: failure position, the token actually
found (if any), and the expectation classification. -/
structure ParserError (ι : Type) where
  pos : Nat
  unexpected : Option ι
  expecting : ErrorExpect ι
deriving Repr, DecidableEq

/-- ParserResult from `parser.rs` (`Result<O, ParserError<I>>`), with the
`&mut Stream` threaded explicitly: a parser maps a stream to a result and
the updated stream. -/
def ParserM (ι ο : Type) : Type :=
  Stream ι → (Except (ParserError ι) ο) × Stream ι

/-- AnyOne from `parser.rs`: peek; on no token fail with `Any` at the
current position; otherwise advance and return the token. -/
def anyOne : ParserM ι ι := fun st =>
  match st.peak with
  | none => (.error ⟨st.pos, none, .Any⟩, st)
  | some v => (.ok v, st.next)

/-- Attempt from `parser.rs`: capture the position, run the wrapped parser,
and on failure restore the captured position before propagating. -/
def attempt (p : ParserM ι ο) : ParserM ι ο := fun st =>
  let pos := st.pos
  match p st with
  | (.error e, st') => (.error e, st'.set_pos pos)
  | (.ok v, st') => (.ok v, st')

/-- Map from `parser.rs`: transform a successful output; failures pass
through. -/
def map (p : ParserM ι ο) (f : ο → α) : ParserM ι α := fun st =>
  match p st with
  | (.ok v, st') => (.ok (f v), st')
  | (.error e, st') => (.error e, st')

/-- Val from `parser.rs`: always succeed with a constant, consuming
nothing. -/
def val (v : ο) : ParserM ι ο := fun st =>
  (.ok v, st)

/-- Or from `parser.rs`: run the first parser; on failure, run the second
from the current stream only when the cursor is still at the captured
position, otherwise propagate the first parser's error. -/
def or (a b : ParserM ι ο) : ParserM ι ο := fun st =>
  let pos := st.pos
  match a st with
  | (.error e, st') => if pos = st'.pos then b st' else (.error e, st')
  | (.ok v, st') => (.ok v, st')

/-- Optional from `parser.rs`: on failure with the cursor unmoved, succeed
with `none`; on failure with the cursor moved, propagate; on success wrap
in `some`. -/
def optional (p : ParserM ι ο) : ParserM ι (Option ο) := fun st =>
  let pos := st.pos
  match p st with
  | (.error e, st') => if pos = st'.pos then (.ok none, st') else (.error e, st')
  | (.ok v, st') => (.ok (some v), st')

/-- Eof parser from `parser.rs`: fail with `Eof` and the offending token if
one remains, otherwise succeed without consuming. -/
def eofP : ParserM ι Unit := fun st =>
  match st.peak with
  | some x => (.error ⟨st.pos, some x, .Eof⟩, st)
  | none => (.ok (), st)

/-- Token from `parser.rs`: peek; on no token fail with `Token x` and no
unexpected token; on an equal token advance and return it; otherwise fail
with `Token x` and the observed token, without advancing. -/
def token [DecidableEq ι] (x : ι) : ParserM ι ι := fun st =>
  match st.peak with
  | none => (.error ⟨st.pos, none, .Token x⟩, st)
  | some res =>
    if res = x then (.ok res, st.next)
    else (.error ⟨st.pos, some res, .Token x⟩, st)

/-- Tokens from `parser.rs`, the loop over the expected sequence: match the
expected tokens one at a time, consuming each match, failing at the first
mismatch with a `Token` error for the expected element there. -/
def tokensGo [DecidableEq ι] :
    List ι → List ι → Stream ι → (Except (ParserError ι) (List ι)) × Stream ι
  | [], acc, st => (.ok acc, st)
  | x :: xs, acc, st =>
    match st.peak with
    | none => (.error ⟨st.pos, none, .Token x⟩, st)
    | some y =>
      if x = y then tokensGo xs (acc ++ [y]) st.next
      else (.error ⟨st.pos, some y, .Token x⟩, st)

/-- Tokens from `parser.rs`: match an exact token sequence, starting from an
empty accumulator. -/
def tokens [DecidableEq ι] (xs : List ι) : ParserM ι (List ι) := fun st =>
  tokensGo xs [] st

/-- Expect from `parser.rs`: peek; on no token fail with `Unknown`; on a
token satisfying the predicate advance and return it; otherwise fail with
`Unknown` and the observed token. -/
def expect (f : ι → Bool) : ParserM ι ι := fun st =>
  match st.peak with
  | none => (.error ⟨st.pos, none, .Unknown⟩, st)
  | some x =>
    if f x then (.ok x, st.next)
    else (.error ⟨st.pos, some x, .Unknown⟩, st)

/-- Msg from `parser.rs`: on failure overwrite only the `expecting` field of
the propagated error with the supplied classification; success passes
through. -/
def msg (p : ParserM ι ο) (m : ErrorExpect ι) : ParserM ι ο := fun st =>
  match p st with
  | (.error e, st') => (.error ⟨e.pos, e.unexpected, m⟩, st')
  | (.ok v, st') => (.ok v, st')

/-- Fail from `parser.rs`: always fail with `Unknown` at the current
position, reporting the current token if any. -/
def failP : ParserM ι ο := fun st =>
  (.error ⟨st.pos, st.peak, .Unknown⟩, st)

/-- Loop from `parser.rs`: the max-count test performed at the top of each
iteration (`i >= max` when a maximum is present, else never stop early). -/
def maxHit (max? : Option Nat) (i : Nat) : Bool :=
  match max? with
  | some max => decide (max ≤ i)
  | none => false

/-- Loop from `parser.rs`: the min-count test performed on an element
failure (`res.len() < min` when a minimum is present, else no check). -/
def minShort (min? : Option Nat) (len : Nat) : Bool :=
  match min? with
  | some min => decide (len < min)
  | none => false

/-- Loop from `parser.rs`, one unbounded `for` loop made structural on an
explicit fuel: `none` models the Rust loop running forever (which happens
exactly when no finite fuel suffices).  Each iteration checks the max
count, captures the position, runs the element parser; on success the
output is accumulated; on failure the error is propagated when the min
count is not reached or the cursor moved, else the loop stops with the
collected outputs. -/
def loopGo (p : ParserM ι ο) (min? max? : Option Nat) :
    Nat → Nat → List ο → Stream ι →
    Option ((Except (ParserError ι) (List ο)) × Stream ι)
  | 0, _, _, _ => none
  | fuel + 1, i, acc, st =>
    if maxHit max? i then some (.ok acc, st)
    else
      match p st with
      | (.ok x, st') => loopGo p min? max? fuel (i + 1) (acc ++ [x]) st'
      | (.error e, st') =>
        if minShort min? acc.length then some (.error e, st')
        else if st'.pos ≠ st.pos then some (.error e, st')
        else some (.ok acc, st')

/-- Loop from `parser.rs` at the top level: counter and accumulator start
at zero and empty; the fuel bounds how many iterations are simulated. -/
def loopParse (p : ParserM ι ο) (min? max? : Option Nat) (fuel : Nat)
    (st : Stream ι) : Option ((Except (ParserError ι) (List ο)) × Stream ι) :=
  loopGo p min? max? fuel 0 [] st

/-- The parser trait's `many`: `Loop::new(self, None, None)`. -/
def many (p : ParserM ι ο) (fuel : Nat) (st : Stream ι) :
    Option ((Except (ParserError ι) (List ο)) × Stream ι) :=
  loopParse p none none fuel st

/-- The parser trait's `many1`: `Loop::new(self, Some(1), None)`. -/
def many1 (p : ParserM ι ο) (fuel : Nat) (st : Stream ι) :
    Option ((Except (ParserError ι) (List ο)) × Stream ι) :=
  loopParse p (some 1) none fuel st

/-- The parser trait's `many_n`: `Loop::new(self, Some(n), Some(n))`. -/
def many_n (p : ParserM ι ο) (n : Nat) (fuel : Nat) (st : Stream ι) :
    Option ((Except (ParserError ι) (List ο)) × Stream ι) :=
  loopParse p (some n) (some n) fuel st

/-- Runs of consecutive successes of a parser: `runsOk p k st` is the list
of the first `k` outputs and the stream after them, when `p` succeeds `k`
times in a row from `st`, and `none` as soon as one of those runs fails.
Used to describe the state of `Loop` after `k` collected elements. -/
def runsOk (p : ParserM ι ο) : Nat → Stream ι → Option (List ο × Stream ι)
  | 0, st => some ([], st)
  | k + 1, st =>
    match p st with
    | (.ok x, st') =>
      match runsOk p k st' with
      | some (os, st2) => some (x :: os, st2)
      | none => none
    | (.error _, _) => none

/-- AnalyzerM: the simplified variant of `analyzer.rs`, where a parser maps
a stream to an `Option` output (no error payload) and the updated stream. -/
def AnalyzerM (ι ο : Type) : Type :=
  Stream ι → Option ο × Stream ι

/-- Or from `analyzer.rs`: run the first analyzer; on `None`, run the second
from whatever stream the first left, with no position test and no
rewind. -/
def aor (a b : AnalyzerM ι ο) : AnalyzerM ι ο := fun st =>
  match a st with
  | (none, st') => b st'
  | (some v, st') => (some v, st')

/-- AnyOne from `analyzer.rs`: peek; on no token report `None`; otherwise
move the cursor forward by one and return the token. -/
def aAnyOne : AnalyzerM ι ι := fun st =>
  match st.peak with
  | none => (none, st)
  | some v => (some v, st.add_pos 1)

/-- Erasure of the error payload, the spec's stated derivation of the
simplified variant from the core (design note: derive the simplified
reporting from the detailed one by discarding the error payload). -/
def eraseErr (p : ParserM ι ο) : AnalyzerM ι ο := fun st =>
  match p st with
  | (.ok v, st') => (some v, st')
  | (.error _, st') => (none, st')

/-- Claim C1: ordered choice first runs A; a success of A is returned; a
failure of A with the cursor still at the starting position runs B from
there and returns B's result, success or failure; a failure of A with the
cursor moved propagates A's error unchanged and is independent of B (B
does not occur in that case's right-hand side). -/
theorem or_spec (a b : ParserM ι ο) (st : Stream ι) :
    (∀ v st', a st = (.ok v, st') → TkrParser.or a b st = (.ok v, st')) ∧
    (∀ e st', a st = (.error e, st') → st'.pos = st.pos →
      TkrParser.or a b st = b st') ∧
    (∀ e st', a st = (.error e, st') → st'.pos ≠ st.pos →
      TkrParser.or a b st = (.error e, st')) := by
  refine ⟨?_, ?_, ?_⟩
  · intro v st' h
    simp only [TkrParser.or, h]
  · intro e st' h hpos
    simp [TkrParser.or, h, hpos]
  · intro e st' h hpos
    simp only [TkrParser.or, h]
    rw [if_neg (fun hc => hpos hc.symm)]

/-- Witness for C1: the consumed-nothing branch at a concrete input, where
the first alternative fails without moving the cursor and the second is run
from the start. -/
theorem or_spec_witness :
    TkrParser.or (token 1) (token 2) (⟨[3], 0⟩ : Stream Nat) =
      (.error ⟨0, some 3, .Token 2⟩, (⟨[3], 0⟩ : Stream Nat)) := by
  have h := (or_spec (token 1) (token 2) (⟨[3], 0⟩ : Stream Nat)).2.1
    ⟨0, some 3, .Token 1⟩ ⟨[3], 0⟩ (by rfl) rfl
  rw [h]
  rfl

/-- Claim C2: the grammar tokens([1,2]).or(tokens([1,3])) over the input
[1,3] fails with position 1, unexpected token 3, expectation Token 2, and
leaves the cursor at position 1 (the second alternative is not reached). -/
theorem or_tokens_partial_commit :
    TkrParser.or (tokens [1, 2]) (tokens [1, 3]) (⟨[1, 3], 0⟩ : Stream Nat) =
      (.error ⟨1, some 3, .Token 2⟩, ⟨[1, 3], 1⟩) := by
  rfl

/-- Counterexample to claim C3: on the empty stream the consume-any-token
primitive fails with classification Any, not Eof as claimed. -/
theorem anyOne_empty_expect_is_any_not_eof :
    anyOne (⟨[], 0⟩ : Stream Nat) = (.error ⟨0, none, .Any⟩, ⟨[], 0⟩) ∧
    (ErrorExpect.Any : ErrorExpect Nat) ≠ ErrorExpect.Eof := by
  exact ⟨rfl, by decide⟩

/-- Claim C3 as amended: on every exhausted stream the consume-any-token
primitive fails with an error classified Any, at the current cursor
position, with no unexpected token, and does not move the cursor. -/
theorem anyOne_exhausted (st : Stream ι) (h : st.peak = none) :
    anyOne st = (.error ⟨st.pos, none, .Any⟩, st) := by
  simp only [anyOne, h]

/-- Witness for the amended C3 at the empty stream. -/
theorem anyOne_exhausted_witness :
    Stream.peak (⟨[], 0⟩ : Stream Nat) = none ∧
    anyOne (⟨[], 0⟩ : Stream Nat) = (.error ⟨0, none, .Any⟩, ⟨[], 0⟩) :=
  ⟨rfl, anyOne_exhausted ⟨[], 0⟩ rfl⟩

/-- Claim C4: whenever the wrapped parser fails, attempt propagates exactly
that error and the cursor position after the call equals the position
before the call, regardless of how far the wrapped parser moved. -/
theorem attempt_spec (p : ParserM ι ο) (st : Stream ι) (e : ParserError ι)
    (st' : Stream ι) (h : p st = (.error e, st')) :
    attempt p st = (.error e, st'.set_pos st.pos) ∧
    (attempt p st).2.pos = st.pos := by
  constructor
  · simp only [attempt, h]
  · simp [attempt, h, Stream.set_pos]

/-- Witness for C4: attempting tokens([1,2]) on [1,3] fails at position 1
but the cursor is restored to 0. -/
theorem attempt_spec_witness :
    tokens [1, 2] (⟨[1, 3], 0⟩ : Stream Nat) =
      (.error ⟨1, some 3, .Token 2⟩, ⟨[1, 3], 1⟩) ∧
    attempt (tokens [1, 2]) (⟨[1, 3], 0⟩ : Stream Nat) =
      (.error ⟨1, some 3, .Token 2⟩, ⟨[1, 3], 0⟩) :=
  ⟨by rfl, (attempt_spec (tokens [1, 2]) ⟨[1, 3], 0⟩ ⟨1, some 3, .Token 2⟩
    ⟨[1, 3], 1⟩ (by rfl)).1⟩

/-- Claim C6: optional succeeds with the absent value when the wrapped
parser fails without moving the cursor, propagates the error when it fails
after moving the cursor, and wraps the value as present on success. -/
theorem optional_spec (p : ParserM ι ο) (st : Stream ι) :
    (∀ e st', p st = (.error e, st') → st'.pos = st.pos →
      optional p st = (.ok none, st')) ∧
    (∀ e st', p st = (.error e, st') → st'.pos ≠ st.pos →
      optional p st = (.error e, st')) ∧
    (∀ v st', p st = (.ok v, st') → optional p st = (.ok (some v), st')) := by
  refine ⟨?_, ?_, ?_⟩
  · intro e st' h hpos
    simp [optional, h, hpos]
  · intro e st' h hpos
    simp only [optional, h]
    rw [if_neg (fun hc => hpos hc.symm)]
  · intro v st' h
    simp only [optional, h]

/-- Witness for C6: optional of token(1) on [2] fails without consuming, so
the optional parse succeeds with none and the cursor stays at 0. -/
theorem optional_spec_witness :
    optional (token 1) (⟨[2], 0⟩ : Stream Nat) =
      (.ok none, (⟨[2], 0⟩ : Stream Nat)) :=
  (optional_spec (token 1) ⟨[2], 0⟩).1 ⟨0, some 2, .Token 1⟩ ⟨[2], 0⟩
    (by rfl) rfl

/-- Claim C7: msg rewrites only the expecting field of a propagated error,
keeping its position and unexpected token; successes pass through
unchanged. -/
theorem msg_spec (p : ParserM ι ο) (m : ErrorExpect ι) (st : Stream ι) :
    (∀ e st', p st = (.error e, st') →
      msg p m st = (.error ⟨e.pos, e.unexpected, m⟩, st')) ∧
    (∀ v st', p st = (.ok v, st') → msg p m st = (.ok v, st')) := by
  refine ⟨?_, ?_⟩
  · intro e st' h
    simp only [msg, h]
  · intro v st' h
    simp only [msg, h]

/-- Witness for C7: overriding the expectation of a failing token(1) parse
keeps position 0 and unexpected 2 while replacing Token 1 by Eof. -/
theorem msg_spec_witness :
    msg (token 1) ErrorExpect.Eof (⟨[2], 0⟩ : Stream Nat) =
      (.error ⟨0, some 2, .Eof⟩, (⟨[2], 0⟩ : Stream Nat)) :=
  (msg_spec (token 1) ErrorExpect.Eof ⟨[2], 0⟩).1 ⟨0, some 2, .Token 1⟩
    ⟨[2], 0⟩ (by rfl)

/-- Claim C8: match-exact-token(t) on a stream whose next token is t
succeeds with t and advances the cursor by exactly one; on a stream whose
next token is u ≠ t it fails with expectation Token t, unexpected u, at the
current position, leaving the cursor unmoved. -/
theorem token_spec [DecidableEq ι] (t u : ι) (st : Stream ι) :
    (st.peak = some t →
      token t st = (.ok t, st.next) ∧ (token t st).2.pos = st.pos + 1) ∧
    (t ≠ u → st.peak = some u →
      token t st = (.error ⟨st.pos, some u, .Token t⟩, st)) := by
  refine ⟨?_, ?_⟩
  · intro h
    constructor
    · simp [token, h]
    · simp [token, h, Stream.next]
  · intro hne h
    simp only [token, h]
    rw [if_neg (fun hc => hne hc.symm)]

/-- Witness for C8: both branches at concrete streams, with t = 1 and
u = 2. -/
theorem token_spec_witness :
    (token 1 (⟨[1], 0⟩ : Stream Nat) = (.ok 1, ⟨[1], 1⟩)) ∧
    (token 1 (⟨[2], 0⟩ : Stream Nat) =
      (.error ⟨0, some 2, .Token 1⟩, ⟨[2], 0⟩)) := by
  refine ⟨?_, ?_⟩
  · exact ((token_spec 1 2 (⟨[1], 0⟩ : Stream Nat)).1 (by rfl)).1
  · exact (token_spec 1 2 (⟨[2], 0⟩ : Stream Nat)).2 (by decide) (by rfl)

/-- Claim C10: match-exact-sequence with the empty token sequence succeeds
on every stream, returns the empty output sequence, and leaves the cursor
unchanged. -/
theorem tokens_nil [DecidableEq ι] (st : Stream ι) : tokens [] st = (.ok [], st) :=
  rfl

/-- Witness for C10 at a concrete stream with a nonzero cursor. -/
theorem tokens_nil_witness :
    tokens [] (⟨[5], 1⟩ : Stream Nat) = (.ok [], ⟨[5], 1⟩) :=
  tokens_nil ⟨[5], 1⟩

/-- Helper: the min-count test of Loop holds exactly when the length is
below the minimum, reading an absent minimum as zero. -/
theorem minShort_eq_true_iff (min? : Option Nat) (n : Nat) :
    minShort min? n = true ↔ n < min?.getD 0 := by
  cases min? <;> simp [minShort]

/-- Helper: a run of k consecutive successes collects exactly k outputs. -/
theorem runsOk_length (p : ParserM ι ο) :
    ∀ (k : Nat) (st : Stream ι) (os : List ο) (stk : Stream ι),
      runsOk p k st = some (os, stk) → os.length = k := by
  intro k
  induction k with
  | zero =>
    intro st os stk h
    simp only [runsOk, Option.some.injEq, Prod.mk.injEq] at h
    obtain ⟨h1, _⟩ := h
    subst h1
    rfl
  | succ k ih =>
    intro st os stk h
    cases hp : p st with
    | mk r st1 =>
      cases r with
      | error e =>
        simp only [runsOk, hp] at h
        exact Option.noConfusion h
      | ok x =>
        simp only [runsOk, hp] at h
        cases hr : runsOk p k st1 with
        | none =>
          simp only [hr] at h
          exact Option.noConfusion h
        | some q =>
          cases q with
          | mk os' st2 =>
            simp only [hr, Option.some.injEq, Prod.mk.injEq] at h
            obtain ⟨h1, _⟩ := h
            subst h1
            simp [ih st1 os' st2 hr]

/-- Helper: after k consecutive successes of the element parser, the Loop
body with fuel at least k + 1 reaches the iteration after those k elements
with the counter and accumulator advanced accordingly, provided the max
count is not hit along the way. -/
theorem loopGo_append (p : ParserM ι ο) (min? max? : Option Nat) :
    ∀ (k : Nat) (st : Stream ι) (os : List ο) (stk : Stream ι)
      (acc : List ο) (i fuel : Nat),
      runsOk p k st = some (os, stk) → k + 1 ≤ fuel →
      (∀ j, j < k → maxHit max? (i + j) = false) →
      loopGo p min? max? fuel i acc st =
        loopGo p min? max? (fuel - k) (i + k) (acc ++ os) stk := by
  intro k
  induction k with
  | zero =>
    intro st os stk acc i fuel hruns _ _
    simp only [runsOk, Option.some.injEq, Prod.mk.injEq] at hruns
    obtain ⟨h1, h2⟩ := hruns
    subst h1
    subst h2
    simp
  | succ k ih =>
    intro st os stk acc i fuel hruns hfuel hmax
    obtain ⟨f, rfl⟩ : ∃ f, fuel = f + 1 := ⟨fuel - 1, by omega⟩
    cases hp : p st with
    | mk r st1 =>
      cases r with
      | error e =>
        simp only [runsOk, hp] at hruns
        exact Option.noConfusion hruns
      | ok x =>
        simp only [runsOk, hp] at hruns
        cases hr : runsOk p k st1 with
        | none =>
          simp only [hr] at hruns
          exact Option.noConfusion hruns
        | some q =>
          cases q with
          | mk os' st2 =>
            simp only [hr, Option.some.injEq, Prod.mk.injEq] at hruns
            obtain ⟨h1, h2⟩ := hruns
            rw [← h1, ← h2]
            have hm0 : maxHit max? i = false := by
              have h0 := hmax 0 (Nat.succ_pos k)
              simpa using h0
            have step : loopGo p min? max? (f + 1) i acc st =
                loopGo p min? max? f (i + 1) (acc ++ [x]) st1 := by
              simp [loopGo, hm0, hp]
            rw [step]
            have ihx := ih st1 os' st2 (acc ++ [x]) (i + 1) f hr (by omega)
              (fun j hj => by
                have hshift : i + 1 + j = i + (j + 1) := by omega
                rw [hshift]
                exact hmax (j + 1) (by omega))
            rw [ihx]
            have e1 : f - k = f + 1 - (k + 1) := by omega
            have e2 : i + 1 + k = i + (k + 1) := by omega
            have e3 : (acc ++ [x]) ++ os' = acc ++ (x :: os') := by simp
            rw [e1, e2, e3]

/-- Claim C5: the repetition combinator (many as Loop with no min and no
max, many1 as Loop with min 1 and no max, many_n(n) as Loop with min n and
max n) repeatedly runs the element parser; once the maximum count is
reached it stops with the collected outputs without a further attempt; on
an element failure after k collected elements it propagates the error when
k is below the minimum count (an absent minimum reading as zero), else
propagates the error when the failing attempt moved the cursor, and else
stops and succeeds with the k outputs collected so far. -/
theorem loop_spec (p : ParserM ι ο) (min? max? : Option Nat) (k : Nat)
    (st : Stream ι) (os : List ο) (stk : Stream ι)
    (hruns : runsOk p k st = some (os, stk)) :
    (∀ fuel st0, many p fuel st0 = loopParse p none none fuel st0) ∧
    (∀ fuel st0, many1 p fuel st0 = loopParse p (some 1) none fuel st0) ∧
    (∀ n fuel st0, many_n p n fuel st0 = loopParse p (some n) (some n) fuel st0) ∧
    (max? = some k → ∀ fuel, k + 1 ≤ fuel →
      loopParse p min? max? fuel st = some (.ok os, stk)) ∧
    ((∀ m, max? = some m → k < m) → ∀ e ste, p stk = (.error e, ste) →
      ∀ fuel, k + 1 ≤ fuel →
      loopParse p min? max? fuel st =
        some (if k < min?.getD 0 then (.error e, ste)
              else if ste.pos ≠ stk.pos then (.error e, ste)
              else (.ok os, ste))) := by
  refine ⟨fun fuel st0 => rfl, fun fuel st0 => rfl, fun n fuel st0 => rfl,
    ?_, ?_⟩
  · rintro rfl fuel hfuel
    have happ := loopGo_append p min? (some k) k st os stk [] 0 fuel hruns
      hfuel (fun j hj => by simp [maxHit]; omega)
    simp only [Nat.zero_add, List.nil_append] at happ
    unfold loopParse
    rw [happ]
    obtain ⟨f, hf⟩ : ∃ f, fuel - k = f + 1 := ⟨fuel - k - 1, by omega⟩
    rw [hf]
    simp [loopGo, maxHit]
  · intro hmax e ste hp fuel hfuel
    have hmaxfalse : maxHit max? k = false := by
      cases max? with
      | none => rfl
      | some m =>
        have hm := hmax m rfl
        simp [maxHit]
        omega
    have happ := loopGo_append p min? max? k st os stk [] 0 fuel hruns hfuel
      (fun j hj => by
        cases max? with
        | none => rfl
        | some m =>
          have hm := hmax m rfl
          simp [maxHit]
          omega)
    simp only [Nat.zero_add, List.nil_append] at happ
    unfold loopParse
    rw [happ]
    obtain ⟨f, hf⟩ : ∃ f, fuel - k = f + 1 := ⟨fuel - k - 1, by omega⟩
    rw [hf]
    have hlen : os.length = k := runsOk_length p k st os stk hruns
    rw [loopGo, hmaxfalse]
    simp only [Bool.false_eq_true, if_false, hp]
    by_cases h1 : k < min?.getD 0
    · have hms : minShort min? os.length = true := by
        rw [minShort_eq_true_iff, hlen]
        exact h1
      simp [hms, h1]
    · have hms : ¬ minShort min? os.length = true := by
        rw [minShort_eq_true_iff, hlen]
        exact h1
      by_cases h2 : ste.pos = stk.pos
      · simp [hms, h1, h2]
      · simp [hms, h1, h2]

/-- Witness for C5: token(1) with min 1 and no max (the many1 shape) over
[1,1,2] collects two elements, then the third attempt fails without moving
the cursor, so the loop succeeds with the two collected outputs. -/
theorem loop_spec_witness :
    runsOk (token 1) 2 (⟨[1, 1, 2], 0⟩ : Stream Nat) =
      some ([1, 1], ⟨[1, 1, 2], 2⟩) ∧
    loopParse (token 1) (some 1) none 3 (⟨[1, 1, 2], 0⟩ : Stream Nat) =
      some (.ok [1, 1], ⟨[1, 1, 2], 2⟩) := by
  constructor
  · rfl
  · have h := (loop_spec (token 1) (some 1) none 2 ⟨[1, 1, 2], 0⟩ [1, 1]
      ⟨[1, 1, 2], 2⟩ (by rfl)).2.2.2.2
      (fun m hm => by cases hm) ⟨2, some 2, .Token 1⟩ ⟨[1, 1, 2], 2⟩
      (by rfl) 3 (by omega)
    simpa using h

/-- Claim C9: the simplified variant's ordered choice always runs the
second alternative when the first reports failure, from whatever stream
the first left (no consumed-input test, no rewind); consequently it is not
equivalent to the core's ordered choice with the error payload discarded:
on the grammar tokens([1,2]) versus tokens([3]) over input [1,3] the
erased core propagates the committed failure while the simplified variant
succeeds via the second alternative. -/
theorem analyzer_or_not_refinement :
    (∀ (α β : Type) (a b : AnalyzerM α β) (st st' : Stream α),
      a st = (none, st') → aor a b st = b st') ∧
    TkrParser.or (tokens [1, 2]) (tokens [3]) (⟨[1, 3], 0⟩ : Stream Nat) =
      (.error ⟨1, some 3, .Token 2⟩, ⟨[1, 3], 1⟩) ∧
    aor (eraseErr (tokens [1, 2])) (eraseErr (tokens [3]))
      (⟨[1, 3], 0⟩ : Stream Nat) = (some [3], ⟨[1, 3], 2⟩) ∧
    eraseErr (TkrParser.or (tokens [1, 2]) (tokens [3]))
        (⟨[1, 3], 0⟩ : Stream Nat) ≠
      aor (eraseErr (tokens [1, 2])) (eraseErr (tokens [3]))
        (⟨[1, 3], 0⟩ : Stream Nat) := by
  refine ⟨?_, by rfl, by rfl, by decide⟩
  intro α β a b st st' h
  simp only [aor, h]

/-- Witness for C9: the simplified choice on the empty stream, where the
first alternative fails in place and the second is run from there. -/
theorem analyzer_or_not_refinement_witness :
    aAnyOne (⟨[], 0⟩ : Stream Nat) = (none, ⟨[], 0⟩) ∧
    aor aAnyOne aAnyOne (⟨[], 0⟩ : Stream Nat) = (none, ⟨[], 0⟩) := by
  constructor
  · rfl
  · have h := analyzer_or_not_refinement.1 Nat Nat aAnyOne aAnyOne
      ⟨[], 0⟩ ⟨[], 0⟩ (by rfl)
    rw [h]
    rfl

end TkrParser
